import Mathlib

/-!
A shallow embedding of `iotracer.py` (strace-output parsing and
file-descriptor correlation) together with proofs about its behaviour.

Modelling conventions:
* Python floats are modelled as rationals (`ℚ`).
* Python `None` is `Option.none`; a `dict` is an association list whose
  insert overwrites the key.
* A Python exception escaping `parse_strace` is `Except.error`; the error
  kind names the Python exception class that is raised.
* The `re` engine is modelled at its output boundary: `STRACE_REG.match`
  on a raw line yields either `none` or a `StraceMatch` holding the six
  named groups, and `parse_strace` consumes the per-line match results.
  The (much simpler) `DECODED_INFO_REG` is modelled directly on strings.
-/

namespace IoTracer

/-- Equality of `Except` results is decidable when both sides are. -/
instance exceptDecEq {ε α : Type} [DecidableEq ε] [DecidableEq α] :
    DecidableEq (Except ε α)
  | .error e, .error f =>
    if h : e = f then .isTrue (by rw [h])
    else .isFalse (fun hh => h (by cases hh; rfl))
  | .error _, .ok _ => .isFalse (fun hh => by cases hh)
  | .ok _, .error _ => .isFalse (fun hh => by cases hh)
  | .ok a, .ok b =>
    if h : a = b then .isTrue (by rw [h])
    else .isFalse (fun hh => h (by cases hh; rfl))

/-- Addition on ℚ.  (Defined through `mkRat` rather than `Rat.add` so
that concrete runs of the model reduce inside `decide`; `qadd_eq` below
shows it is ordinary addition.) -/
def qadd (a b : ℚ) : ℚ := mkRat (a.num * b.den + b.num * a.den) (a.den * b.den)

/-- Subtraction on ℚ, reducible like `qadd`. -/
def qsub (a b : ℚ) : ℚ := qadd a (-b)

/-- Strict comparison on ℚ as a reducible boolean (`qlt_iff`). -/
def qlt (a b : ℚ) : Bool := decide (a.num * (b.den : Int) < b.num * (a.den : Int))

/-- `qadd` is addition. -/
theorem qadd_eq (a b : ℚ) : qadd a b = a + b := by
  have ha : ((a.den : ℚ)) ≠ 0 := by exact_mod_cast a.den_nz
  have hb : ((b.den : ℚ)) ≠ 0 := by exact_mod_cast b.den_nz
  rw [qadd, Rat.mkRat_eq_div]
  push_cast
  conv_rhs => rw [← Rat.num_div_den a, ← Rat.num_div_den b, div_add_div _ _ ha hb]
  ring_nf

/-- `qsub` is subtraction. -/
theorem qsub_eq (a b : ℚ) : qsub a b = a - b := by
  rw [qsub, qadd_eq, sub_eq_add_neg]

/-- `qlt` is the strict order. -/
theorem qlt_iff (a b : ℚ) : qlt a b = true ↔ a < b := by
  rw [qlt, decide_eq_true_iff, Rat.lt_def]

/-- Python exception classes that can escape the modelled code. -/
inductive PyError
  | attributeError
  | valueError
  | indexError
deriving DecidableEq

/-- The `ACTIONS` enum member names (`OPEN_CLOSE` / `READ` / `WRITE`):
`parse_strace` stores `ACTIONS.<member>.name` in each `Action`. -/
inductive ActionKind
  | OPEN_CLOSE
  | READ
  | WRITE
deriving DecidableEq

/-- `Line = namedtuple('Line', ['start_time', 'syscall', 'args', 'return_code', 'duration'])`. -/
structure Line where
  start_time : ℚ
  syscall : String
  args : List String
  return_code : Int
  duration : ℚ
deriving DecidableEq

/-- The observable data of one `Action` object: `path`, `start_time`,
`end_time` and the action name.  (`color`/`edgecolor` are constants and
play no role.)  `start_time` is optional because a close of a descriptor
that was never observed opened stores `None`. -/
structure Action where
  path : String
  start_time : Option ℚ
  end_time : ℚ
  action : ActionKind
deriving DecidableEq

/-- The value stored in the `fds` dictionary for one descriptor
(`{'start_time': ..., 'path': ..., 'duration': ...}`). -/
structure OpenEntry where
  start_time : Option ℚ
  path : String
  duration : Option ℚ
deriving DecidableEq

/-- The `fds` dictionary of `parse_strace`: descriptor number to entry. -/
abbrev Fds := List (Int × OpenEntry)

/-- `Action.path_to_height`: path to lane height, in insertion order
(Python dicts preserve insertion order). -/
abbrev Lane := List (String × Nat)

/-- `SYSCALL.OPEN = ['open', 'openat']`. -/
def SYSCALL.OPEN : List String := ["open", "openat"]

/-- `SYSCALL.CLOSE = ['close']`. -/
def SYSCALL.CLOSE : List String := ["close"]

/-- `SYSCALL.READ = ['read']`. -/
def SYSCALL.READ : List String := ["read"]

/-- `SYSCALL.WRITE = ['write']`. -/
def SYSCALL.WRITE : List String := ["write"]

/-- `d[k] = v` on a Python dict: overwrite the binding for `k`. -/
def dictInsert (d : Fds) (k : Int) (v : OpenEntry) : Fds :=
  (k, v) :: d.filter (fun kv => kv.1 ≠ k)

/-- `d.get(k)` on a Python dict (without the default). -/
def dictGet? (d : Fds) (k : Int) : Option OpenEntry :=
  match d with
  | [] => none
  | (k', v) :: rest => if k' = k then some v else dictGet? rest k

/-- The removal effect of `d.pop(k, default)` on a Python dict. -/
def dictPop (d : Fds) (k : Int) : Fds :=
  d.filter (fun kv => kv.1 ≠ k)

/-- `max(list(Action.path_to_height.values()) or [10])`: the maximum of
the recorded heights, or `10` when there are none. -/
def laneMax (lane : Lane) : Nat :=
  match lane.map Prod.snd with
  | [] => 10
  | v :: vs => vs.foldl max v

/-- `Action.path_to_height.setdefault(path, max(...) + 30)`: if `path`
already has a height, no change; otherwise append `path` with height
`laneMax lane + 30`. -/
def laneSetdefault (lane : Lane) (p : String) : Lane :=
  if lane.any (fun kv => kv.1 = p) then lane
  else lane ++ [(p, laneMax lane + 30)]

/-- Lookup in `Action.path_to_height`. -/
def laneGet? (lane : Lane) (p : String) : Option Nat :=
  (lane.find? (fun kv => kv.1 = p)).map Prod.snd

/-- `s.strip('"')`: remove every leading and trailing double quote. -/
def stripQuotes (s : String) : String :=
  ⟨((s.toList.dropWhile (fun c => c = '"')).reverse.dropWhile
      (fun c => c = '"')).reverse⟩

/-- Digit value of a character in the given base, as Python `int` accepts
it (decimal digits, and case-insensitive letters for larger bases). -/
def digitVal? (base : Nat) (c : Char) : Option Nat :=
  let v : Nat :=
    if c.isDigit then c.toNat - 48
    else if 97 ≤ c.toNat ∧ c.toNat ≤ 122 then c.toNat - 87
    else if 65 ≤ c.toNat ∧ c.toNat ≤ 90 then c.toNat - 55
    else 99
  if v < base then some v else none

/-- Accumulate a digit string in the given base; `none` on a bad digit. -/
def parseDigits (base : Nat) (cs : List Char) : Option Nat :=
  cs.foldl
    (fun acc c =>
      match acc, digitVal? base c with
      | some n, some d => some (base * n + d)
      | _, _ => none)
    (some 0)

/-- Python `int(s, base)` (for the token shapes the trace grammar can
produce): optional surrounding whitespace, optional sign, an optional
`0x`/`0X` prefix when `base = 16`, then a non-empty run of digits of the
base; anything else raises `ValueError`, modelled as `none`. -/
def pyInt? (s : String) (base : Nat) : Option Int :=
  let cs := ((s.toList.dropWhile Char.isWhitespace).reverse.dropWhile
      Char.isWhitespace).reverse
  let sgncs : Int × List Char :=
    match cs with
    | '-' :: r => (-1, r)
    | '+' :: r => (1, r)
    | _ => (1, cs)
  let cs' : List Char :=
    if base = 16 then
      match sgncs.2 with
      | '0' :: 'x' :: r => r
      | '0' :: 'X' :: r => r
      | _ => sgncs.2
    else sgncs.2
  match cs' with
  | [] => none
  | _ => (parseDigits base cs').map (fun n => sgncs.1 * (n : Int))

/-- Value of a decimal digit string, most significant first. -/
def digitsToNat (cs : List Char) : Nat :=
  cs.foldl (fun n c => 10 * n + (c.toNat - 48)) 0

/-- Python `float(s)` restricted to the character set the line grammar's
groups `[\d\.]+` can produce (digits and dots): valid iff non-empty, at
most one dot and at least one digit; `ValueError` is `none`. -/
def pyFloatDD? (s : String) : Option ℚ :=
  let cs := s.toList
  if cs ≠ [] ∧ (∀ c ∈ cs, c.isDigit ∨ c = '.') ∧ cs.count '.' ≤ 1 ∧
      (∃ c ∈ cs, c.isDigit) then
    let ip := cs.takeWhile (fun c => c ≠ '.')
    let fp := (cs.dropWhile (fun c => c ≠ '.')).drop 1
    some (mkRat (digitsToNat ip * 10 ^ fp.length + digitsToNat fp) (10 ^ fp.length))
  else none

/-- Core of `DECODED_INFO_REG.match`: the pattern
`(?P<arg>.*)\<(?P<decoded>.*?)\>` under `re.match` semantics.  The greedy
`arg` group ends at the LAST occurrence of a matchable `<`, i.e. the last
`<` that still has some `>` after it; the lazy `decoded` group then runs
to the first following `>`.  Recursing on the tail first makes the
deepest (right-most) split win, which is exactly the greedy behaviour. -/
def decodeCore : List Char → Option (List Char × List Char)
  | [] => none
  | c :: cs =>
    match decodeCore cs with
    | some (arg, deco) => some (c :: arg, deco)
    | none =>
      if c == '<' && cs.any (fun d => d == '>') then
        some ([], cs.takeWhile (fun d => d != '>'))
      else none

/-- `DECODED_INFO_REG.match(s)`, returning the `(arg, decoded)` groups,
or `none` when the annotation is absent (the match fails). -/
def decodedInfoMatch (s : String) : Option (String × String) :=
  (decodeCore s.toList).map (fun ad => (⟨ad.1⟩, ⟨ad.2⟩))

/-- One step of glob matching, as `fnmatch.fnmatch` behaves on POSIX:
`*` matches any run, `?` one character, `[...]` a character set (with
`!` negation, ranges, a leading `]` taken literally, and an unterminated
`[` taken as a literal character).  `fuel` only bounds the recursion
depth; every recursive call shrinks `pattern.length + s.length`, so the
initial fuel chosen in `globMatch` is always sufficient. -/
def findCloseBracket : List Char → Option (List Char × List Char)
  | [] => none
  | ']' :: rest => some ([], rest)
  | c :: rest =>
    (findCloseBracket rest).map (fun ab => (c :: ab.1, ab.2))

/-- Parse a bracket expression body (the text after `[`): returns the
negation flag, the set characters and the pattern after the closing `]`,
or `none` when there is no closing bracket. -/
def bracketParse (ps : List Char) : Option (Bool × List Char × List Char) :=
  let negps : Bool × List Char :=
    match ps with
    | '!' :: r => (true, r)
    | _ => (false, ps)
  let scan : Option (List Char × List Char) :=
    match negps.2 with
    | ']' :: r => (findCloseBracket r).map (fun ab => (']' :: ab.1, ab.2))
    | other => findCloseBracket other
  scan.map (fun ab => (negps.1, ab.1, ab.2))

/-- Character-set membership with ranges (`a-z`); a `-` that is not
between two characters is literal. -/
def inSet : List Char → Char → Bool
  | a :: '-' :: b :: rest, c =>
    (decide (a ≤ c) && decide (c ≤ b)) || inSet rest c
  | a :: rest, c => a == c || inSet rest c
  | [], _ => false

/-- Fueled glob matcher (see `findCloseBracket` for the fuel remark). -/
def globMatchAux : Nat → List Char → List Char → Bool
  | 0, _, _ => false
  | _ + 1, [], s => s.isEmpty
  | fuel + 1, '*' :: ps, [] => globMatchAux fuel ps []
  | fuel + 1, '*' :: ps, c :: cs =>
    globMatchAux fuel ps (c :: cs) || globMatchAux fuel ('*' :: ps) cs
  | fuel + 1, '?' :: ps, _ :: cs => globMatchAux fuel ps cs
  | _ + 1, '?' :: _, [] => false
  | fuel + 1, '[' :: ps, s =>
    match bracketParse ps with
    | some (neg, set, rest) =>
      match s with
      | c :: cs => (neg != inSet set c) && globMatchAux fuel rest cs
      | [] => false
    | none =>
      match s with
      | '[' :: cs => globMatchAux fuel ps cs
      | _ => false
  | fuel + 1, p :: ps, c :: cs => p == c && globMatchAux fuel ps cs
  | _ + 1, _ :: _, [] => false

/-- `fnmatch.fnmatch(name, pat)` on POSIX (where `normcase` is the
identity): anchored glob match of the whole name. -/
def fnmatchB (name pat : String) : Bool :=
  globMatchAux (pat.length + name.length + 1) pat.toList name.toList

/-- `any(fnmatch.fnmatch(path, p) for p in paths)`. -/
def matchesFilter (path : String) (paths : List String) : Bool :=
  paths.any (fun p => fnmatchB path p)

/-- The mutable state of one pass of `parse_strace`, together with the
process-global `Action.path_to_height` table.  `fds` and `syscalls` are
local variables of `parse_strace` (fresh each call); `lane` models the
class attribute, which persists across calls and is threaded explicitly
here. -/
structure PState where
  fds : Fds
  lane : Lane
  syscalls : List Action
deriving DecidableEq

/-- Constructing an `Action(...)` object: the constructor calls
`Action.path_to_height.setdefault(path, ...)` and the caller appends the
object to `syscalls`. -/
def emit (st : PState) (a : Action) : PState :=
  { st with
    lane := laneSetdefault st.lane a.path
    syscalls := st.syscalls ++ [a] }

/-- The per-record body of the `for` loop of `parse_strace`, on an
already-parsed `Line`.  Faithful to the source order: the open branch
reads `args[1]`; the close/read/write branches first run
`DECODED_INFO_REG.match(args[0]).groups()` (an `AttributeError` when the
match fails), then `int(fd)` (a `ValueError` when non-numeric); close
ignores descriptors 1 and 2, pops the entry otherwise; read/write use a
non-removing lookup; the glob filter guards every emission. -/
def processLine (paths : List String) (st : PState) (line : Line) :
    Except PyError PState :=
  if line.syscall ∈ SYSCALL.OPEN then
    match line.args[1]? with
    | none => .error .indexError
    | some a1 =>
      .ok { st with
        fds := dictInsert st.fds line.return_code
          ⟨some line.start_time, stripQuotes a1, some line.duration⟩ }
  else if line.syscall ∈ SYSCALL.CLOSE then
    match line.args[0]? with
    | none => .error .indexError
    | some a0 =>
      match decodedInfoMatch a0 with
      | none => .error .attributeError
      | some (fdStr, dpath) =>
        match pyInt? fdStr 10 with
        | none => .error .valueError
        | some fd =>
          if fd = 1 ∨ fd = 2 then .ok st
          else
            let file_ := (dictGet? st.fds fd).getD ⟨none, dpath, none⟩
            let st' : PState := { st with fds := dictPop st.fds fd }
            if matchesFilter file_.path paths then
              .ok (emit st'
                ⟨file_.path, file_.start_time,
                  qadd line.start_time line.duration, ActionKind.OPEN_CLOSE⟩)
            else .ok st'
  else if line.syscall ∈ SYSCALL.READ then
    match line.args[0]? with
    | none => .error .indexError
    | some a0 =>
      match decodedInfoMatch a0 with
      | none => .error .attributeError
      | some (fdStr, dpath) =>
        match pyInt? fdStr 10 with
        | none => .error .valueError
        | some fd =>
          let file_ := (dictGet? st.fds fd).getD ⟨none, dpath, none⟩
          if matchesFilter file_.path paths then
            .ok (emit st
              ⟨file_.path, some line.start_time,
                qadd line.start_time line.duration, ActionKind.READ⟩)
          else .ok st
  else if line.syscall ∈ SYSCALL.WRITE then
    match line.args[0]? with
    | none => .error .indexError
    | some a0 =>
      match decodedInfoMatch a0 with
      | none => .error .attributeError
      | some (fdStr, dpath) =>
        match pyInt? fdStr 10 with
        | none => .error .valueError
        | some fd =>
          let file_ := (dictGet? st.fds fd).getD ⟨none, dpath, none⟩
          if matchesFilter file_.path paths then
            .ok (emit st
              ⟨file_.path, some line.start_time,
                qadd line.start_time line.duration, ActionKind.WRITE⟩)
          else .ok st
  else .ok st

/-- The loop of `parse_strace` over already-parsed records; an exception
in one iteration aborts the whole run. -/
def processLines (paths : List String) : PState → List Line → Except PyError PState
  | st, [] => .ok st
  | st, l :: ls =>
    match processLine paths st l with
    | .error e => .error e
    | .ok st' => processLines paths st' ls

/-- The six named groups of a successful `STRACE_REG.match` on one raw
trace line.  The regular-expression engine itself is external; its
per-line output (`none` for a non-matching line) is the boundary at
which raw text enters the modelled code. -/
structure StraceMatch where
  start_time : String
  syscall : String
  args : String
  return_code : String
  decoded_info : Option String
  duration : String
deriving DecidableEq

/-- `args.split(',')`: split on every comma, keeping empty pieces, so
the result is always non-empty (Python list semantics). -/
def splitOnComma (cs : List Char) : List (List Char) :=
  match cs with
  | [] => [[]]
  | c :: rest =>
    let r := splitOnComma rest
    if c == ',' then [] :: r
    else
      match r with
      | [] => [[c]]
      | g :: gs => (c :: g) :: gs

/-- `x.strip()`: drop surrounding whitespace. -/
def trimChars (cs : List Char) : List Char :=
  ((cs.dropWhile Char.isWhitespace).reverse.dropWhile Char.isWhitespace).reverse

/-- `_parse_strace_line` on a successful match: in Python's evaluation
order, `float(start_time)`, then the comma-split and stripped `args`,
then `int(return_code, 16 if 'x' in return_code else 10)`, then
`float(duration)`; any conversion failure raises `ValueError`. -/
def parseStraceLine (m : StraceMatch) : Except PyError Line :=
  match pyFloatDD? m.start_time with
  | none => .error .valueError
  | some st =>
    let args := (splitOnComma m.args.toList).map (fun g => (⟨trimChars g⟩ : String))
    match pyInt? m.return_code
        (if m.return_code.toList.any (fun c => c == 'x') then 16 else 10) with
    | none => .error .valueError
    | some rc =>
      match pyFloatDD? m.duration with
      | none => .error .valueError
      | some dur => .ok ⟨st, m.syscall, args, rc, dur⟩

/-- The loop of `parse_strace` over per-line match results: a line that
did not match `STRACE_REG` is skipped (`if not line: continue`); a line
that matched is converted by `_parse_strace_line` and then processed. -/
def parseMatches (paths : List String) :
    PState → List (Option StraceMatch) → Except PyError PState
  | st, [] => .ok st
  | st, m :: ms =>
    match m with
    | none => parseMatches paths st ms
    | some mm =>
      match parseStraceLine mm with
      | .error e => .error e
      | .ok l =>
        match processLine paths st l with
        | .error e => .error e
        | .ok st' => parseMatches paths st' ms

/-- `parse_strace(stderr, paths)`: `syscalls = []` and `fds = {}` are
fresh local variables; `Action.path_to_height` (here `lane`) is the
process-global table in whatever state earlier calls left it. -/
def parse_strace (ms : List (Option StraceMatch)) (paths : List String)
    (lane : Lane) : Except PyError PState :=
  parseMatches paths ⟨[], lane, []⟩ ms

/-- `parse_strace` on records that already parsed (the structured core
shared by the claims that quantify over records rather than raw text). -/
def parse_strace_lines (lane : Lane) (ls : List Line) (paths : List String) :
    Except PyError PState :=
  processLines paths ⟨[], lane, []⟩ ls

/-- Python truthiness of an optional float: `None` and `0.0` are falsy. -/
def pyTruthy : Option ℚ → Bool
  | none => false
  | some t => decide (t ≠ 0)

/-- Python `min` over a list: `ValueError` on an empty sequence;
otherwise keep the running minimum, replaced only on a strictly smaller
element, exactly as `min` iterates. -/
def pyMin? : List ℚ → Option ℚ
  | [] => none
  | x :: xs => some (xs.foldl (fun acc y => if qlt y acc then y else acc) x)

/-- The timestamp stage of `generate_svg`: it always computes
`min(x.start_time for x in strace_results if x.start_time)` (a
`ValueError` when no action has a truthy start time), and, unless
`keep_timestamps`, shifts every action by that minimum, substituting 0
for a falsy start time.  The SVG drawing that follows is pure output and
is not modelled. -/
def generate_svg (strace_results : List Action) (keep_timestamps : Bool) :
    Except PyError (List Action) :=
  let known := strace_results.filterMap
    (fun a => if pyTruthy a.start_time then a.start_time else none)
  match pyMin? known with
  | none => .error .valueError
  | some m =>
    if keep_timestamps then .ok strace_results
    else
      .ok (strace_results.map (fun a =>
        { a with
          start_time := some (match a.start_time with
            | some t => if t ≠ 0 then qsub t m else 0
            | none => 0)
          end_time := qsub a.end_time m }))

/-! ## Helper lemmas -/

/-- Seed is below a fold of `max`. -/
theorem le_foldl_max (x : Nat) (xs : List Nat) : x ≤ xs.foldl max x := by
  induction xs generalizing x with
  | nil => exact le_refl x
  | cons y ys ih => exact le_trans (le_max_left x y) (ih (max x y))

/-- Members are below a fold of `max`. -/
theorem mem_le_foldl_max (y x : Nat) (xs : List Nat) (hy : y ∈ xs) :
    y ≤ xs.foldl max x := by
  induction xs generalizing x with
  | nil => cases hy
  | cons z zs ih =>
    rcases List.mem_cons.mp hy with h1 | h1
    · subst h1; exact le_trans (le_max_right x y) (le_foldl_max _ _)
    · exact ih _ h1

/-- Every recorded height is bounded by `laneMax`. -/
theorem le_laneMax (lane : Lane) (q : String) (h : Nat) (hm : (q, h) ∈ lane) :
    h ≤ laneMax lane := by
  have hx : h ∈ lane.map Prod.snd := List.mem_map_of_mem Prod.snd hm
  rw [laneMax]
  cases hmap : lane.map Prod.snd with
  | nil => rw [hmap] at hx; cases hx
  | cons v vs =>
    rw [hmap] at hx
    rcases List.mem_cons.mp hx with h1 | h1
    · subst h1; exact le_foldl_max _ _
    · exact mem_le_foldl_max _ _ _ h1

/-- `find?` skips a block in which it fails. -/
theorem find?_append_none {α : Type} (p : α → Bool) (l1 l2 : List α)
    (h : l1.find? p = none) : (l1 ++ l2).find? p = l2.find? p := by
  induction l1 with
  | nil => rfl
  | cons x xs ih =>
    cases hx : p x with
    | true => rw [List.find?_cons_of_pos _ hx] at h; cases h
    | false =>
      rw [List.find?_cons_of_neg _ (by simp [hx])] at h
      rw [List.cons_append, List.find?_cons_of_neg _ (by simp [hx])]
      exact ih h

/-- Splitting a run of `processLines` at an append. -/
theorem processLines_append (paths : List String) (st : PState)
    (l1 l2 : List Line) :
    processLines paths st (l1 ++ l2) =
      match processLines paths st l1 with
      | .error e => .error e
      | .ok st1 => processLines paths st1 l2 := by
  induction l1 generalizing st with
  | nil => rfl
  | cons x xs ih =>
    simp only [List.cons_append, processLines]
    cases hx : processLine paths st x with
    | error e => rfl
    | ok st1 => exact ih st1

/-! ## Claim theorems -/

/-- Claim C3 (status: code_bug).  The line grammar deliberately accepts
the unresolved return-code marker `?` (the `\?` alternative of
`STRACE_REG`), and the claim says such a line must be tolerated
non-fatally.  In the code, `int('?', 10)` raises `ValueError` instead:
for the raw line `1.0 foo() = ? <0.001>` (whose `STRACE_REG` groups are
the first match below) the whole run aborts, and the following perfectly
good line is never processed. -/
theorem c3_unresolved_marker_crash :
    parse_strace
      [some ⟨"1.0", "foo", "", "?", none, "0.001"⟩,
       some ⟨"2.0", "openat", "AT_FDCWD, \"/a\", O_RDONLY", "3", none, "0.001"⟩]
      ["*"] [] = .error .valueError := by decide

/-- Claim C10 (status: code_bug).  When every action's start time is
absent (here: the single OPEN_CLOSE action a close of a never-observed
descriptor produces), `generate_svg` computes `min()` over an empty
sequence and raises `ValueError`, although the claim (and §4.5/§6 of the
spec) requires normalization to substitute zero and not crash. -/
theorem c10_all_absent_normalization_crash :
    generate_svg [⟨"/x", none, 5, ActionKind.OPEN_CLOSE⟩] false =
      .error .valueError := by decide

/-- Counterexample to claim C1 as stated: a write record whose decoded
descriptor is 1 (standard output) DOES emit an Action under the
match-all filter — only the close branch checks `fd not in [1, 2]`. -/
theorem c1_counterexample :
    parse_strace_lines [] [⟨1, "write", ["1</dev/pts/0>", "\"hi\"", "2"], 2, 1⟩]
      ["*"] =
      .ok ⟨[], [("/dev/pts/0", 40)],
        [⟨"/dev/pts/0", some 1, 2, ActionKind.WRITE⟩]⟩ := by decide

/-- Claim C1, amended (status: corrected): a CLOSE record whose decoded
descriptor is 1 or 2 is ignored entirely — the tracker and the emitted
actions are unchanged; read and write records enjoy no such exemption
(see the counterexample). -/
theorem c1_close_stdio_ignored (paths : List String) (st : PState) (l : Line)
    (a0 fdStr dpath : String) (fd : Int)
    (hsys : l.syscall ∈ SYSCALL.CLOSE)
    (ha0 : l.args[0]? = some a0)
    (hdec : decodedInfoMatch a0 = some (fdStr, dpath))
    (hfd : pyInt? fdStr 10 = some fd)
    (h12 : fd = 1 ∨ fd = 2) :
    processLine paths st l = .ok st := by
  simp [SYSCALL.CLOSE] at hsys
  simp [processLine, SYSCALL.OPEN, SYSCALL.CLOSE, hsys, ha0, hdec, hfd, h12]

/-- Witness for `c1_close_stdio_ignored` at a concrete input. -/
theorem c1_close_stdio_ignored_witness :
    ((Line.mk 3 "close" ["2</dev/pts/0>"] 0 1).syscall ∈ SYSCALL.CLOSE
      ∧ (Line.mk 3 "close" ["2</dev/pts/0>"] 0 1).args[0]? = some "2</dev/pts/0>"
      ∧ decodedInfoMatch "2</dev/pts/0>" = some ("2", "/dev/pts/0")
      ∧ pyInt? "2" 10 = some 2
      ∧ ((2 : Int) = 1 ∨ (2 : Int) = 2))
    ∧ processLine ["*"] ⟨[], [], []⟩ (Line.mk 3 "close" ["2</dev/pts/0>"] 0 1) =
        .ok ⟨[], [], []⟩ :=
  ⟨⟨by decide, by decide, by decide, by decide, by decide⟩,
    c1_close_stdio_ignored ["*"] ⟨[], [], []⟩ (Line.mk 3 "close" ["2</dev/pts/0>"] 0 1)
      "2</dev/pts/0>" "2" "/dev/pts/0" 2
      (by decide) (by decide) (by decide) (by decide) (by decide)⟩

/-- Claim C2 (status: confirmed): if a close/read/write record's first
argument lacks the `<fd><path>` annotation, `DECODED_INFO_REG.match`
returns `None` and `.groups()` on it raises `AttributeError`: the run
aborts with the error surfaced, the record is not skipped, and no
subsequent lines are processed (the result is the same for every
suffix). -/
theorem c2_missing_annotation_aborts (paths : List String) (st0 st1 : PState)
    (pre suf : List Line) (l : Line) (a0 : String)
    (hsys : l.syscall ∈ SYSCALL.CLOSE ∨ l.syscall ∈ SYSCALL.READ ∨
      l.syscall ∈ SYSCALL.WRITE)
    (ha0 : l.args[0]? = some a0)
    (hdec : decodedInfoMatch a0 = none)
    (hpre : processLines paths st0 pre = .ok st1) :
    processLines paths st0 (pre ++ l :: suf) = .error .attributeError := by
  rw [processLines_append, hpre]
  show processLines paths st1 (l :: suf) = _
  have hstep : processLine paths st1 l = .error .attributeError := by
    rcases hsys with h | h | h <;>
      simp [SYSCALL.CLOSE, SYSCALL.READ, SYSCALL.WRITE] at h <;>
      simp [processLine, SYSCALL.OPEN, SYSCALL.CLOSE, SYSCALL.READ,
        SYSCALL.WRITE, h, ha0, hdec]
  show ((match processLine paths st1 l with
    | .error e => .error e
    | .ok st2 => processLines paths st2 suf : Except PyError PState)) = _
  rw [hstep]

/-- Witness for `c2_missing_annotation_aborts`: a close line whose first
argument `3` carries no annotation kills the run before a later,
well-formed line. -/
theorem c2_missing_annotation_aborts_witness :
    (((Line.mk 1 "close" ["3"] 0 1).syscall ∈ SYSCALL.CLOSE ∨
        (Line.mk 1 "close" ["3"] 0 1).syscall ∈ SYSCALL.READ ∨
        (Line.mk 1 "close" ["3"] 0 1).syscall ∈ SYSCALL.WRITE)
      ∧ (Line.mk 1 "close" ["3"] 0 1).args[0]? = some "3"
      ∧ decodedInfoMatch "3" = none
      ∧ processLines ["*"] ⟨[], [], []⟩ [] = .ok ⟨[], [], []⟩)
    ∧ processLines ["*"] ⟨[], [], []⟩
        ([] ++ Line.mk 1 "close" ["3"] 0 1 ::
          [Line.mk 2 "read" ["4</f>", "x", "1"] 1 1]) =
        .error .attributeError :=
  ⟨⟨Or.inl (by decide), by decide, by decide, by decide⟩,
    c2_missing_annotation_aborts ["*"] ⟨[], [], []⟩ ⟨[], [], []⟩ []
      [Line.mk 2 "read" ["4</f>", "x", "1"] 1 1]
      (Line.mk 1 "close" ["3"] 0 1) "3"
      (Or.inl (by decide)) (by decide) (by decide) (by decide)⟩

/-- Claim C4 (status: confirmed): an open-family record always inserts
or overwrites the tracker entry keyed by its return code — with the
quote-stripped `args[1]` path and the record's start time — with no
condition on the sign of the return code (a failed open is tracked,
never dropped). -/
theorem c4_open_always_tracks (paths : List String) (st : PState) (l : Line)
    (a1 : String)
    (hsys : l.syscall ∈ SYSCALL.OPEN)
    (ha1 : l.args[1]? = some a1) :
    processLine paths st l = .ok { st with
      fds := dictInsert st.fds l.return_code
        ⟨some l.start_time, stripQuotes a1, some l.duration⟩ } := by
  simp [processLine, hsys, ha1]

/-- Witness for `c4_open_always_tracks` with a negative return code. -/
theorem c4_open_always_tracks_witness :
    ((Line.mk 5 "openat" ["AT_FDCWD", "\"/f\"", "O_CREAT"] (-2) 1).syscall
        ∈ SYSCALL.OPEN
      ∧ (Line.mk 5 "openat" ["AT_FDCWD", "\"/f\"", "O_CREAT"] (-2) 1).args[1]? =
        some "\"/f\"")
    ∧ processLine ["*"] ⟨[], [], []⟩
        (Line.mk 5 "openat" ["AT_FDCWD", "\"/f\"", "O_CREAT"] (-2) 1) =
        .ok ⟨[(-2, ⟨some 5, "/f", some 1⟩)], [], []⟩ :=
  ⟨⟨by decide, by decide⟩,
    c4_open_always_tracks ["*"] ⟨[], [], []⟩
      (Line.mk 5 "openat" ["AT_FDCWD", "\"/f\"", "O_CREAT"] (-2) 1)
      "\"/f\"" (by decide) (by decide)⟩

/-- Claim C6 (status: confirmed): open(fd=3,"/a"), close(3),
open(fd=3,"/b"), close(3) under the match-all filter yields exactly two
OPEN_CLOSE actions, the first for "/a" and the second for "/b" — the
reused descriptor gets a fresh entry, never merged (the tracker is empty
again at the end). -/
theorem c6_descriptor_reuse :
    parse_strace_lines []
      [⟨0, "openat", ["AT_FDCWD", "\"/a\"", "O_RDONLY"], 3, 1⟩,
       ⟨2, "close", ["3</a>"], 0, 1⟩,
       ⟨4, "openat", ["AT_FDCWD", "\"/b\"", "O_RDONLY"], 3, 1⟩,
       ⟨6, "close", ["3</b>"], 0, 1⟩] ["*"] =
      .ok ⟨[], [("/a", 40), ("/b", 70)],
        [⟨"/a", some 0, 3, ActionKind.OPEN_CLOSE⟩,
         ⟨"/b", some 4, 7, ActionKind.OPEN_CLOSE⟩]⟩ := by decide

/-- Claim C9 (status: confirmed): lane assignment gives the first two
distinct paths heights 40 and 70; it is idempotent for an already-present
path; every new height strictly exceeds every existing height (so
heights are strictly increasing in first-seen order and never reused);
and a fresh path is recorded at `laneMax + 30`. -/
theorem c9_lane_heights :
    (∀ a b : String, a ≠ b →
      laneSetdefault (laneSetdefault [] a) b = [(a, 40), (b, 70)])
    ∧ (∀ (lane : Lane) (p : String),
      lane.any (fun kv => kv.1 = p) = true → laneSetdefault lane p = lane)
    ∧ (∀ (lane : Lane) (q : String) (h : Nat),
      (q, h) ∈ lane → h < laneMax lane + 30)
    ∧ (∀ (lane : Lane) (p : String),
      lane.any (fun kv => kv.1 = p) = false →
      laneGet? (laneSetdefault lane p) p = some (laneMax lane + 30)) := by
  refine ⟨?_, ?_, ?_, ?_⟩
  · intro a b hab
    simp [laneSetdefault, laneMax, hab]
  · intro lane p h
    simp [laneSetdefault, h]
  · intro lane q h hm
    exact lt_of_le_of_lt (le_laneMax lane q h hm) (by omega)
  · intro lane p hfalse
    have hnone : lane.find? (fun kv => kv.1 = p) = none := by
      rw [List.find?_eq_none]
      intro x hx hpx
      have hany : lane.any (fun kv => kv.1 = p) = true :=
        List.any_eq_true.mpr ⟨x, hx, hpx⟩
      rw [hany] at hfalse
      cases hfalse
    rw [laneSetdefault, if_neg (by simp [hfalse]), laneGet?,
      find?_append_none _ _ _ hnone]
    simp [List.find?]

/-- Witness for `c9_lane_heights` at concrete inputs. -/
theorem c9_lane_heights_witness :
    (("a" : String) ≠ "b"
      ∧ laneSetdefault (laneSetdefault [] "a") "b" = [("a", 40), ("b", 70)])
    ∧ ([(("a" : String), (40 : Nat))].any (fun kv => kv.1 = "a") = true
      ∧ laneSetdefault [("a", 40)] "a" = [("a", 40)])
    ∧ ((("a" : String), (40 : Nat)) ∈ [(("a" : String), (40 : Nat))]
      ∧ 40 < laneMax [("a", 40)] + 30)
    ∧ ([(("a" : String), (40 : Nat))].any (fun kv => kv.1 = "c") = false
      ∧ laneGet? (laneSetdefault [("a", 40)] "c") "c" =
        some (laneMax [("a", 40)] + 30)) :=
  ⟨⟨by decide, c9_lane_heights.1 "a" "b" (by decide)⟩,
    ⟨by decide, c9_lane_heights.2.1 [("a", 40)] "a" (by decide)⟩,
    ⟨by decide, c9_lane_heights.2.2.1 [("a", 40)] "a" 40 (by decide)⟩,
    ⟨by decide, c9_lane_heights.2.2.2 [("a", 40)] "c" (by decide)⟩⟩

/-- Counterexample to claim C5 as stated: heights assigned during one
invocation DO influence a later invocation.  Run 1 (from the pristine
empty table) leaves "/a" at height 40; run 2 started from that table
assigns "/b" height 70, while the same run 2 from a fresh empty table
would assign 40 — `Action.path_to_height` is class-level state shared
across `parse_strace` calls. -/
theorem c5_counterexample :
    parse_strace_lines [] [⟨1, "read", ["3</a>", "\"\"", "10"], 10, 1⟩] ["*"] =
      .ok ⟨[], [("/a", 40)], [⟨"/a", some 1, 2, ActionKind.READ⟩]⟩
    ∧ parse_strace_lines [("/a", 40)]
        [⟨3, "read", ["4</b>", "\"\"", "10"], 10, 1⟩] ["*"] =
      .ok ⟨[], [("/a", 40), ("/b", 70)], [⟨"/b", some 3, 4, ActionKind.READ⟩]⟩
    ∧ parse_strace_lines [] [⟨3, "read", ["4</b>", "\"\"", "10"], 10, 1⟩] ["*"] =
      .ok ⟨[], [("/b", 40)], [⟨"/b", some 3, 4, ActionKind.READ⟩]⟩
    ∧ (70 : Nat) ≠ 40 := by
  refine ⟨by decide, by decide, by decide, by decide⟩

/-- A successful `dictGet?` lookup is a member of the table. -/
theorem dictGet?_mem (d : Fds) (k : Int) (v : OpenEntry)
    (h : dictGet? d k = some v) : (k, v) ∈ d := by
  induction d with
  | nil => cases h
  | cons kv rest ih =>
    obtain ⟨k1, v1⟩ := kv
    simp only [dictGet?] at h
    split at h
    · cases h
      rename_i heq
      subst heq
      exact List.mem_cons_self _ _
    · exact List.mem_cons_of_mem _ (ih h)

/-- `emit` only appends to the lane table. -/
theorem emit_lane_extends (s : PState) (a : Action) :
    ∃ t, s.lane ++ t = (emit s a).lane := by
  show ∃ t, s.lane ++ t = laneSetdefault s.lane a.path
  rw [laneSetdefault]
  split
  · exact ⟨[], List.append_nil _⟩
  · exact ⟨_, rfl⟩

/-- One processed record only appends to the lane table. -/
theorem processLine_lane_extends (paths : List String) (st : PState) (l : Line)
    (st' : PState) (h : processLine paths st l = .ok st') :
    ∃ t, st.lane ++ t = st'.lane := by
  simp only [processLine] at h
  repeat' split at h
  all_goals (try (simp at h))
  all_goals subst h
  all_goals first
    | exact ⟨[], List.append_nil _⟩
    | exact emit_lane_extends _ _

/-- A whole run only appends to the lane table. -/
theorem processLines_lane_extends (paths : List String) (ls : List Line)
    (st st' : PState) (h : processLines paths st ls = .ok st') :
    ∃ t, st.lane ++ t = st'.lane := by
  induction ls generalizing st with
  | nil =>
    simp only [processLines] at h
    cases h
    exact ⟨[], List.append_nil _⟩
  | cons l ls ih =>
    simp only [processLines] at h
    cases hx : processLine paths st l with
    | error e => rw [hx] at h; cases h
    | ok st1 =>
      rw [hx] at h
      obtain ⟨t1, ht1⟩ := processLine_lane_extends paths st l st1 hx
      obtain ⟨t2, ht2⟩ := ih st1 h
      exact ⟨t1 ++ t2, by rw [← List.append_assoc, ht1, ht2]⟩

/-- Claim C5, amended (status: corrected): the descriptor tracker and the
action list are local variables of `parse_strace` and hence fresh for
every invocation, but the lane table is class-level, process-wide state:
a parse invocation only extends the table it is given, so heights
assigned in one invocation persist into — and influence — later
invocations of the same process (see the counterexample). -/
theorem c5_lane_persists (paths : List String) (lane : Lane) (ls : List Line)
    (st' : PState) (hok : parse_strace_lines lane ls paths = .ok st') :
    ∃ t, lane ++ t = st'.lane :=
  processLines_lane_extends paths ls ⟨[], lane, []⟩ st' hok

/-- Witness for `c5_lane_persists`: the table left by an earlier run
survives a later run, which only appends to it. -/
theorem c5_lane_persists_witness :
    parse_strace_lines [("/a", 40)]
      [⟨3, "read", ["4</b>", "x", "10"] , 10, 1⟩] ["*"] =
      .ok ⟨[], [("/a", 40), ("/b", 70)], [⟨"/b", some 3, 4, ActionKind.READ⟩]⟩
    ∧ ∃ t, [(("/a" : String), (40 : Nat))] ++ t =
        (PState.mk [] [("/a", 40), ("/b", 70)]
          [⟨"/b", some 3, 4, ActionKind.READ⟩]).lane :=
  ⟨by decide,
    c5_lane_persists ["*"] [("/a", 40)]
      [⟨3, "read", ["4</b>", "x", "10"], 10, 1⟩]
      ⟨[], [("/a", 40), ("/b", 70)], [⟨"/b", some 3, 4, ActionKind.READ⟩]⟩
      (by decide)⟩

/-- Claim C7 (status: confirmed): a read or write record whose decoded
descriptor has no tracker entry still emits an Action — `fds.get(fd,
default)` synthesizes the default entry, the emitted interval is the
record's own `[start_time, start_time + duration]`, and no error is
raised. -/
theorem c7_untracked_read_write (paths : List String) (st : PState) (l : Line)
    (a0 fdStr dpath : String) (fd : Int) (k : ActionKind)
    (hk : (l.syscall ∈ SYSCALL.READ ∧ k = ActionKind.READ) ∨
      (l.syscall ∈ SYSCALL.WRITE ∧ k = ActionKind.WRITE))
    (ha0 : l.args[0]? = some a0)
    (hdec : decodedInfoMatch a0 = some (fdStr, dpath))
    (hfd : pyInt? fdStr 10 = some fd)
    (huntracked : dictGet? st.fds fd = none)
    (hmatch : matchesFilter dpath paths = true) :
    processLine paths st l = .ok (emit st
      ⟨dpath, some l.start_time, l.start_time + l.duration, k⟩) := by
  rcases hk with ⟨h, hk⟩ | ⟨h, hk⟩ <;>
    simp [SYSCALL.READ, SYSCALL.WRITE] at h <;>
    subst hk <;>
    simp [processLine, SYSCALL.OPEN, SYSCALL.CLOSE, SYSCALL.READ, SYSCALL.WRITE,
      h, ha0, hdec, hfd, huntracked, hmatch, qadd_eq]

/-- Witness for `c7_untracked_read_write`: a read on the never-opened
descriptor 7 emits a READ action with the record's own timing. -/
theorem c7_untracked_read_write_witness :
    (((Line.mk 4 "read" ["7</data>", "x", "16"] 16 1).syscall ∈ SYSCALL.READ
        ∧ (Line.mk 4 "read" ["7</data>", "x", "16"] 16 1).args[0]? =
          some "7</data>"
        ∧ decodedInfoMatch "7</data>" = some ("7", "/data")
        ∧ pyInt? "7" 10 = some 7
        ∧ dictGet? ([] : Fds) 7 = none
        ∧ matchesFilter "/data" ["*"] = true)
      ∧ processLine ["*"] ⟨[], [], []⟩ (Line.mk 4 "read" ["7</data>", "x", "16"] 16 1) =
        .ok (emit ⟨[], [], []⟩ ⟨"/data", some 4, 4 + 1, ActionKind.READ⟩)) :=
  ⟨⟨by decide, by decide, by decide, by decide, by decide, by decide⟩,
    c7_untracked_read_write ["*"] ⟨[], [], []⟩
      (Line.mk 4 "read" ["7</data>", "x", "16"] 16 1)
      "7</data>" "7" "/data" 7 ActionKind.READ
      (Or.inl ⟨by decide, rfl⟩) (by decide) (by decide) (by decide)
      (by decide) (by decide)⟩

/-- An emitted action's interval is well-formed: the start, when known,
is at most the end. -/
def ActOk (a : Action) : Prop := ∀ t, a.start_time = some t → t ≤ a.end_time

/-- Every tracked entry's start time, when known, is at most the start
time of every remaining record. -/
def FdsOk (fds : Fds) (ls : List Line) : Prop :=
  ∀ kv ∈ fds, ∀ t, (kv : Int × OpenEntry).2.start_time = some t →
    ∀ l ∈ ls, t ≤ l.start_time

/-- Invariant step for claim C8: processing one record preserves action
well-formedness and the tracker time bound. -/
theorem c8_step (paths : List String) (st : PState) (l : Line) (ls : List Line)
    (st' : PState) (hstep : processLine paths st l = .ok st')
    (hacts : ∀ a ∈ st.syscalls, ActOk a)
    (hfds : FdsOk st.fds (l :: ls))
    (hdur : 0 ≤ l.duration)
    (hmono : ∀ x ∈ ls, l.start_time ≤ x.start_time) :
    (∀ a ∈ st'.syscalls, ActOk a) ∧ FdsOk st'.fds ls := by
  have hweak : FdsOk st.fds ls := fun kv hkv t ht x hx =>
    hfds kv hkv t ht x (List.mem_cons_of_mem l hx)
  have hpop : ∀ fd : Int, FdsOk (dictPop st.fds fd) ls := fun fd kv hkv t ht x hx =>
    hfds kv (List.mem_of_mem_filter hkv) t ht x (List.mem_cons_of_mem l hx)
  have hinsert : ∀ (rc : Int) (p : String),
      FdsOk (dictInsert st.fds rc ⟨some l.start_time, p, some l.duration⟩) ls := by
    intro rc p kv hkv t ht x hx
    rcases List.mem_cons.mp hkv with h1 | h1
    · subst h1
      simp only at ht
      cases ht
      exact hmono x hx
    · exact hfds kv (List.mem_of_mem_filter h1) t ht x (List.mem_cons_of_mem l hx)
  have hrw : ∀ (p : String) (k : ActionKind),
      ActOk ⟨p, some l.start_time, qadd l.start_time l.duration, k⟩ := by
    intro p k t ht
    simp only at ht
    cases ht
    show l.start_time ≤ qadd l.start_time l.duration
    rw [qadd_eq]
    linarith
  have hcloseAct : ∀ (fd : Int) (dpath : String) (k : ActionKind),
      ActOk ⟨((dictGet? st.fds fd).getD ⟨none, dpath, none⟩).path,
        ((dictGet? st.fds fd).getD ⟨none, dpath, none⟩).start_time,
        qadd l.start_time l.duration, k⟩ := by
    intro fd dpath k t ht
    simp only at ht
    cases hget : dictGet? st.fds fd with
    | none => rw [hget] at ht; cases ht
    | some e =>
      rw [hget] at ht
      simp only [Option.getD_some] at ht
      have hm := dictGet?_mem _ _ _ hget
      have hle := hfds (fd, e) hm t ht l (List.mem_cons_self _ _)
      show t ≤ qadd l.start_time l.duration
      rw [qadd_eq]
      linarith
  have happend : ∀ a : Action, ActOk a → ∀ x ∈ st.syscalls ++ [a], ActOk x := by
    intro a hA x hx
    rcases List.mem_append.mp hx with h1 | h1
    · exact hacts x h1
    · rw [List.mem_singleton.mp h1]
      exact hA
  simp only [processLine] at hstep
  repeat' split at hstep
  all_goals (try (simp at hstep))
  all_goals subst hstep
  all_goals refine ⟨?_, ?_⟩
  all_goals first
    | exact hacts
    | exact hweak
    | exact hpop _
    | exact hinsert _ _
    | exact happend _ (hrw _ _)
    | exact happend _ (hcloseAct _ _ _)

/-- Invariant run for claim C8. -/
theorem c8_run (paths : List String) (ls : List Line) (st st' : PState)
    (h : processLines paths st ls = .ok st')
    (hmono : List.Pairwise (fun a b => a.start_time ≤ b.start_time) ls)
    (hdur : ∀ l ∈ ls, 0 ≤ l.duration)
    (hacts : ∀ a ∈ st.syscalls, ActOk a)
    (hfds : FdsOk st.fds ls) :
    ∀ a ∈ st'.syscalls, ActOk a := by
  induction ls generalizing st with
  | nil =>
    simp only [processLines] at h
    cases h
    exact hacts
  | cons l ls ih =>
    simp only [processLines] at h
    cases hx : processLine paths st l with
    | error e => rw [hx] at h; cases h
    | ok st1 =>
      rw [hx] at h
      have hp := List.pairwise_cons.mp hmono
      obtain ⟨h1, h2⟩ := c8_step paths st l ls st1 hx hacts hfds
        (hdur l (List.mem_cons_self _ _)) hp.1
      exact ih st1 h hp.2 (fun x hx2 => hdur x (List.mem_cons_of_mem _ hx2)) h1 h2

/-- Claim C8 (status: confirmed): under non-decreasing record start
times and non-negative durations, every emitted Action with a known
start time has `end_time` at least `start_time` (its derived duration is
non-negative). -/
theorem c8_end_time_ge_start (paths : List String) (lane : Lane)
    (ls : List Line) (st' : PState)
    (hmono : List.Pairwise (fun a b => a.start_time ≤ b.start_time) ls)
    (hdur : ∀ l ∈ ls, 0 ≤ l.duration)
    (hok : parse_strace_lines lane ls paths = .ok st')
    (a : Action) (ha : a ∈ st'.syscalls) (t : ℚ) (hst : a.start_time = some t) :
    t ≤ a.end_time :=
  c8_run paths ls ⟨[], lane, []⟩ st' hok hmono hdur
    (fun x hx => absurd hx (List.not_mem_nil x))
    (fun kv hkv => absurd hkv (List.not_mem_nil kv)) a ha t hst

/-- Witness for `c8_end_time_ge_start` on a concrete open/close pair. -/
theorem c8_end_time_ge_start_witness :
    (List.Pairwise (fun a b => a.start_time ≤ b.start_time)
        [Line.mk 0 "openat" ["AT_FDCWD", "/f", "O_RDONLY"] 3 1,
         Line.mk 2 "close" ["3</a>"] 0 1]
      ∧ (∀ l ∈ [Line.mk 0 "openat" ["AT_FDCWD", "/f", "O_RDONLY"] 3 1,
          Line.mk 2 "close" ["3</a>"] 0 1], 0 ≤ l.duration)
      ∧ parse_strace_lines []
          [Line.mk 0 "openat" ["AT_FDCWD", "/f", "O_RDONLY"] 3 1,
           Line.mk 2 "close" ["3</a>"] 0 1] ["*"] =
        .ok ⟨[], [("/f", 40)], [⟨"/f", some 0, 3, ActionKind.OPEN_CLOSE⟩]⟩
      ∧ Action.mk "/f" (some 0) 3 ActionKind.OPEN_CLOSE ∈
        (PState.mk [] [("/f", 40)]
          [⟨"/f", some 0, 3, ActionKind.OPEN_CLOSE⟩]).syscalls
      ∧ (Action.mk "/f" (some 0) 3 ActionKind.OPEN_CLOSE).start_time = some 0)
    ∧ (0 : ℚ) ≤ (Action.mk "/f" (some 0) 3 ActionKind.OPEN_CLOSE).end_time :=
  ⟨⟨by decide, by decide, by decide, by decide, by decide⟩,
    c8_end_time_ge_start ["*"] []
      [Line.mk 0 "openat" ["AT_FDCWD", "/f", "O_RDONLY"] 3 1,
       Line.mk 2 "close" ["3</a>"] 0 1]
      ⟨[], [("/f", 40)], [⟨"/f", some 0, 3, ActionKind.OPEN_CLOSE⟩]⟩
      (by decide) (by decide) (by decide)
      (Action.mk "/f" (some 0) 3 ActionKind.OPEN_CLOSE) (by decide) 0 (by decide)⟩

end IoTracer
